import Mathlib

/-!
Verification development for the CoinGecko historic-data fetcher
(src/HistoricData.py).

The program has two core pieces of logic:

* get_market_data: a retry loop (3 attempts) around an HTTP GET, with
  rate-limit handling driven by the X-RateLimit-Remaining and
  X-RateLimit-Reset response headers, and

* extract_price_cap_metrics: a pure reduction of the fetched price and
  market-cap time series to summary statistics.

The embedding below models the HTTP environment as an oracle assigning to
each issued request (indexed by the loop attempt counter; the loop issues
exactly one request per iteration) the outcome of that request.  Time
series values are modelled as rationals, timestamps and Unix times as
integers.  The URL/timestamp construction at the top of get_market_data is
I/O plumbing outside the claims and is not modelled.
-/

/-- A data point of the provider response: a [timestamp, value] pair. -/
abbrev Point := Int × ℚ

/-- The parts of an HTTP response inspected by get_market_data: the two
rate-limit headers (absent header = none) and the two optional fields of
the parsed JSON body (absent field = none). -/
structure HttpResponse where
  remaining : Option Int
  reset : Option Int
  prices : Option (List Point)
  market_caps : Option (List Point)
deriving DecidableEq

/-- Outcome of one issued HTTP request: either requests.get or
raise_for_status raises a RequestException, or a successful response is
obtained. -/
inductive ReqOutcome where
  | fail : ReqOutcome
  | ok : HttpResponse → ReqOutcome
deriving DecidableEq

/-- What get_market_data does in the end: return a value (the pair of
series, or None-None modelled as none), or propagate an exception that the
RequestException handler does not catch (the ValueError from time.sleep on
a negative duration). -/
inductive FetchOutcome where
  | returns : Option (List Point × List Point) → FetchOutcome
  | raises : FetchOutcome
deriving DecidableEq

/-- A sleep performed by the retry loop: either the rate-limit sleep of
time.sleep(sleep_time + 10) with its duration, or the fixed 5-second
retry delay time.sleep(5). -/
inductive SleepEvent where
  | rateLimit : Int → SleepEvent
  | retryDelay : SleepEvent
deriving DecidableEq

/-- retries = 3 in get_market_data. -/
def retries : Nat := 3

/-- The body of the loop "for attempt in range(retries)" of
get_market_data, line by line.  now models time.time() (assumed constant
during one call), env the HTTP environment, attempt the loop variable, and
fuel the number of iterations range(retries) still has to offer, so the
top-level call is runFetch now env 0 retries.  Returns the fetch outcome
together with the chronological list of sleeps performed. -/
def runFetch (now : Int) (env : Nat → ReqOutcome) :
    Nat → Nat → FetchOutcome × List SleepEvent
  | _, 0 => (.returns none, [])
  | attempt, fuel + 1 =>
    match env attempt with
    | .fail =>
      if attempt < retries - 1 then
        let rest := runFetch now env (attempt + 1) fuel
        (rest.1, .retryDelay :: rest.2)
      else
        (.returns none, [])
    | .ok r =>
      if r.remaining.getD 1 = 0 then
        if r.reset.getD now - now + 10 < 0 then
          (.raises, [])
        else
          let rest := runFetch now env (attempt + 1) fuel
          (rest.1, .rateLimit (r.reset.getD now - now + 10) :: rest.2)
      else
        match r.prices, r.market_caps with
        | some p, some c => (.returns (some (p, c)), [])
        | _, _ => (.returns none, [])

/-- get_market_data, from the retry loop on: the loop body runFetch run
with attempt = 0 and the full budget of retries = 3 iterations. -/
def get_market_data (now : Int) (env : Nat → ReqOutcome) :
    FetchOutcome × List SleepEvent :=
  runFetch now env 0 retries

/-- Instrumentation mirroring runFetch step for step: true exactly when
control falls out of the for loop and reaches the final return None, None
of get_market_data (line 54), false when some return or uncaught exception
inside the loop body ends the call. -/
def runFetchFallsThrough (now : Int) (env : Nat → ReqOutcome) :
    Nat → Nat → Bool
  | _, 0 => true
  | attempt, fuel + 1 =>
    match env attempt with
    | .fail =>
      if attempt < retries - 1 then
        runFetchFallsThrough now env (attempt + 1) fuel
      else
        false
    | .ok r =>
      if r.remaining.getD 1 = 0 then
        if r.reset.getD now - now + 10 < 0 then
          false
        else
          runFetchFallsThrough now env (attempt + 1) fuel
      else
        false

/-- Whether a call of get_market_data ends through the fallthrough return
after the loop. -/
def fetchFallsThrough (now : Int) (env : Nat → ReqOutcome) : Bool :=
  runFetchFallsThrough now env 0 retries

/-- The record built by extract_price_cap_metrics (lines 77 to 88). -/
structure Metrics where
  start_price : ℚ
  end_price : ℚ
  highest_price : ℚ
  lowest_price : ℚ
  price_change : ℚ
  start_cap : ℚ
  end_cap : ℚ
  market_cap_change : ℚ
  prices : List Point
  market_caps : List Point
deriving DecidableEq

/-- extract_price_cap_metrics (lines 57 to 88).  The Python guard
"if not prices or not market_caps: return None" is the two none cases;
prices[0][1] is the head value, prices[-1][1] the last value, and the
Python max and min over the non-empty value list [p[1] for p in prices]
are left folds of max and min starting from the first value. -/
def extract_price_cap_metrics : List Point → List Point → Option Metrics
  | [], _ => none
  | _ :: _, [] => none
  | p0 :: ps, c0 :: cs =>
    let price_start := p0.2
    let price_end := (List.getLast (p0 :: ps) (List.cons_ne_nil p0 ps)).2
    let market_cap_start := c0.2
    let market_cap_end := (List.getLast (c0 :: cs) (List.cons_ne_nil c0 cs)).2
    let highest_price := (ps.map Prod.snd).foldl max price_start
    let lowest_price := (ps.map Prod.snd).foldl min price_start
    some {
      start_price := price_start
      end_price := price_end
      highest_price := highest_price
      lowest_price := lowest_price
      price_change := price_end - price_start
      start_cap := market_cap_start
      end_cap := market_cap_end
      market_cap_change := market_cap_end - market_cap_start
      prices := p0 :: ps
      market_caps := c0 :: cs
    }

/-- Outcome of one line of the input file as the per-line loop of main
(lines 148 to 180) sees it: a blank line, a line whose processing raises
an exception caught by the per-line handler, or a line whose fetch call
returned the given two series (the None, None return of get_market_data
and the empty series behave alike under the truthiness test of line 160
and are both modelled as empty lists). -/
inductive LineOutcome where
  | blank : LineOutcome
  | lineError : LineOutcome
  | fetched : List Point → List Point → LineOutcome
deriving DecidableEq

/-- What one iteration of the loop of main did: whether the CSV and chart
writes happened, and which pacing sleeps (in seconds) were performed. -/
structure LineResult where
  saved : Bool
  sleeps : List Int
deriving DecidableEq

/-- One iteration of the per-line loop of main: blank lines are skipped;
a raised exception is caught by the per-line handler after which the loop
moves on, skipping the rest of the body including the pacing sleep; when
the fetch result is falsy in either component the continue of line 162
skips the rest of the body including the pacing sleep; otherwise metrics
are extracted, saved when present, and time.sleep(5) runs in both cases
before the next line. -/
def process_line : LineOutcome → LineResult
  | .blank => ⟨false, []⟩
  | .lineError => ⟨false, []⟩
  | .fetched prices market_caps =>
    if prices = [] ∨ market_caps = [] then
      ⟨false, []⟩
    else
      match extract_price_cap_metrics prices market_caps with
      | some _ => ⟨true, [5]⟩
      | none => ⟨false, [5]⟩

section MaxMinLemmas

lemma le_foldl_max_init (a : ℚ) (l : List ℚ) : a ≤ l.foldl max a := by
  induction l generalizing a with
  | nil => exact le_refl a
  | cons x xs ih =>
    calc a ≤ max a x := le_max_left a x
    _ ≤ xs.foldl max (max a x) := ih (max a x)

lemma le_foldl_max_of_mem {x : ℚ} (a : ℚ) (l : List ℚ) (hx : x ∈ l) :
    x ≤ l.foldl max a := by
  induction l generalizing a with
  | nil => exact absurd hx (List.not_mem_nil x)
  | cons y ys ih =>
    rcases List.mem_cons.mp hx with h | h
    · subst h
      calc x ≤ max a x := le_max_right a x
      _ ≤ ys.foldl max (max a x) := le_foldl_max_init _ _
    · exact ih (max a y) h

lemma foldl_max_mem (a : ℚ) (l : List ℚ) :
    l.foldl max a = a ∨ l.foldl max a ∈ l := by
  induction l generalizing a with
  | nil => exact Or.inl rfl
  | cons x xs ih =>
    rcases ih (max a x) with h | h
    · rcases max_choice a x with hax | hax
      · exact Or.inl (by rw [List.foldl_cons, h, hax])
      · exact Or.inr (by rw [List.foldl_cons, h, hax]; exact List.mem_cons_self x xs)
    · exact Or.inr (List.mem_cons_of_mem x h)

lemma foldl_min_init_le (a : ℚ) (l : List ℚ) : l.foldl min a ≤ a := by
  induction l generalizing a with
  | nil => exact le_refl a
  | cons x xs ih =>
    calc xs.foldl min (min a x) ≤ min a x := ih (min a x)
    _ ≤ a := min_le_left a x

lemma foldl_min_le_of_mem {x : ℚ} (a : ℚ) (l : List ℚ) (hx : x ∈ l) :
    l.foldl min a ≤ x := by
  induction l generalizing a with
  | nil => exact absurd hx (List.not_mem_nil x)
  | cons y ys ih =>
    rcases List.mem_cons.mp hx with h | h
    · subst h
      calc ys.foldl min (min a x) ≤ min a x := foldl_min_init_le _ _
      _ ≤ x := min_le_right a x
    · exact ih (min a y) h

lemma foldl_min_mem (a : ℚ) (l : List ℚ) :
    l.foldl min a = a ∨ l.foldl min a ∈ l := by
  induction l generalizing a with
  | nil => exact Or.inl rfl
  | cons x xs ih =>
    rcases ih (min a x) with h | h
    · rcases min_choice a x with hax | hax
      · exact Or.inl (by rw [List.foldl_cons, h, hax])
      · exact Or.inr (by rw [List.foldl_cons, h, hax]; exact List.mem_cons_self x xs)
    · exact Or.inr (List.mem_cons_of_mem x h)

end MaxMinLemmas

section FetchStepLemmas

lemma runFetch_fail_retry (now : Int) (env : Nat → ReqOutcome)
    (attempt fuel : Nat) (h : env attempt = .fail)
    (hlt : attempt < retries - 1) :
    runFetch now env attempt (fuel + 1) =
      ((runFetch now env (attempt + 1) fuel).1,
       .retryDelay :: (runFetch now env (attempt + 1) fuel).2) := by
  simp [runFetch, h, hlt]

lemma runFetch_fail_last (now : Int) (env : Nat → ReqOutcome)
    (attempt fuel : Nat) (h : env attempt = .fail)
    (hlt : ¬ attempt < retries - 1) :
    runFetch now env attempt (fuel + 1) = (.returns none, []) := by
  simp [runFetch, h, hlt]

lemma runFetch_ok_quota (now : Int) (env : Nat → ReqOutcome)
    (attempt fuel : Nat) (r : HttpResponse) (h : env attempt = .ok r)
    (hq : r.remaining.getD 1 ≠ 0) :
    runFetch now env attempt (fuel + 1) =
      (match r.prices, r.market_caps with
       | some p, some c => (.returns (some (p, c)), [])
       | _, _ => (.returns none, [])) := by
  simp only [runFetch, h]
  rw [if_neg hq]

lemma runFetch_ok_rl (now : Int) (env : Nat → ReqOutcome)
    (attempt fuel : Nat) (r : HttpResponse) (h : env attempt = .ok r)
    (hq : r.remaining.getD 1 = 0)
    (hnn : ¬ r.reset.getD now - now + 10 < 0) :
    runFetch now env attempt (fuel + 1) =
      ((runFetch now env (attempt + 1) fuel).1,
       .rateLimit (r.reset.getD now - now + 10) ::
         (runFetch now env (attempt + 1) fuel).2) := by
  simp [runFetch, h, hq, hnn]

lemma runFetch_ok_rl_neg (now : Int) (env : Nat → ReqOutcome)
    (attempt fuel : Nat) (r : HttpResponse) (h : env attempt = .ok r)
    (hq : r.remaining.getD 1 = 0)
    (hneg : r.reset.getD now - now + 10 < 0) :
    runFetch now env attempt (fuel + 1) = (.raises, []) := by
  simp [runFetch, h, hq, hneg]

end FetchStepLemmas

/-- Claim C5: extract_price_cap_metrics returns none exactly when at least
one of the two input sequences is empty; on two non-empty sequences it
always constructs a Metrics record. -/
theorem c5_extract_none_iff_empty (prices market_caps : List Point) :
    extract_price_cap_metrics prices market_caps = none ↔
      prices = [] ∨ market_caps = [] := by
  cases prices with
  | nil => simp [extract_price_cap_metrics]
  | cons p0 ps =>
    cases market_caps with
    | nil => simp [extract_price_cap_metrics]
    | cons c0 cs => simp [extract_price_cap_metrics]

section ExtractHelpers

lemma values_le_highest (p0 : Point) (ps : List Point) :
    ∀ v ∈ (p0 :: ps).map Prod.snd, v ≤ (ps.map Prod.snd).foldl max p0.2 := by
  intro v hv
  rw [List.map_cons, List.mem_cons] at hv
  rcases hv with h | h
  · subst h
    exact le_foldl_max_init _ _
  · exact le_foldl_max_of_mem _ _ h

lemma highest_mem_values (p0 : Point) (ps : List Point) :
    (ps.map Prod.snd).foldl max p0.2 ∈ (p0 :: ps).map Prod.snd := by
  rw [List.map_cons]
  rcases foldl_max_mem p0.2 (ps.map Prod.snd) with h | h
  · rw [h]
    exact List.mem_cons_self _ _
  · exact List.mem_cons_of_mem _ h

lemma lowest_le_values (p0 : Point) (ps : List Point) :
    ∀ v ∈ (p0 :: ps).map Prod.snd, (ps.map Prod.snd).foldl min p0.2 ≤ v := by
  intro v hv
  rw [List.map_cons, List.mem_cons] at hv
  rcases hv with h | h
  · subst h
    exact foldl_min_init_le _ _
  · exact foldl_min_le_of_mem _ _ h

lemma lowest_mem_values (p0 : Point) (ps : List Point) :
    (ps.map Prod.snd).foldl min p0.2 ∈ (p0 :: ps).map Prod.snd := by
  rw [List.map_cons]
  rcases foldl_min_mem p0.2 (ps.map Prod.snd) with h | h
  · rw [h]
    exact List.mem_cons_self _ _
  · exact List.mem_cons_of_mem _ h

end ExtractHelpers

/-- Claim C6: on non-empty inputs, extract_price_cap_metrics returns a
Metrics record whose start and end values are the value fields of the
first and last elements in sequence order, whose highest and lowest price
are the maximum and minimum over the value fields of the whole price
sequence, and whose deltas are exact subtractions end minus start. -/
theorem c6_extract_field_values (p0 : Point) (ps : List Point)
    (c0 : Point) (cs : List Point) :
    ∃ m, extract_price_cap_metrics (p0 :: ps) (c0 :: cs) = some m ∧
      m.start_price = ((p0 :: ps).head (List.cons_ne_nil p0 ps)).2 ∧
      m.end_price = ((p0 :: ps).getLast (List.cons_ne_nil p0 ps)).2 ∧
      m.start_cap = ((c0 :: cs).head (List.cons_ne_nil c0 cs)).2 ∧
      m.end_cap = ((c0 :: cs).getLast (List.cons_ne_nil c0 cs)).2 ∧
      m.highest_price ∈ (p0 :: ps).map Prod.snd ∧
      (∀ v ∈ (p0 :: ps).map Prod.snd, v ≤ m.highest_price) ∧
      m.lowest_price ∈ (p0 :: ps).map Prod.snd ∧
      (∀ v ∈ (p0 :: ps).map Prod.snd, m.lowest_price ≤ v) ∧
      m.price_change = m.end_price - m.start_price ∧
      m.market_cap_change = m.end_cap - m.start_cap := by
  refine ⟨_, rfl, rfl, rfl, rfl, rfl, ?_, ?_, ?_, ?_, rfl, rfl⟩
  · exact highest_mem_values p0 ps
  · exact values_le_highest p0 ps
  · exact lowest_mem_values p0 ps
  · exact lowest_le_values p0 ps

/-- Claim C7: on non-empty inputs, the Metrics returned by
extract_price_cap_metrics satisfies highest_price at least start_price and
end_price, and lowest_price at most start_price and end_price. -/
theorem c7_extract_extreme_bounds (p0 : Point) (ps : List Point)
    (c0 : Point) (cs : List Point) :
    ∃ m, extract_price_cap_metrics (p0 :: ps) (c0 :: cs) = some m ∧
      m.start_price ≤ m.highest_price ∧
      m.end_price ≤ m.highest_price ∧
      m.lowest_price ≤ m.start_price ∧
      m.lowest_price ≤ m.end_price := by
  have hlastmem : (p0 :: ps).getLast (List.cons_ne_nil p0 ps) ∈ p0 :: ps :=
    List.getLast_mem _
  have hlast : ((p0 :: ps).getLast (List.cons_ne_nil p0 ps)).2 ∈
      (p0 :: ps).map Prod.snd :=
    List.mem_map_of_mem _ hlastmem
  have hhead : p0.2 ∈ (p0 :: ps).map Prod.snd := by
    rw [List.map_cons]
    exact List.mem_cons_self _ _
  refine ⟨_, rfl, ?_, ?_, ?_, ?_⟩
  · exact values_le_highest p0 ps _ hhead
  · exact values_le_highest p0 ps _ hlast
  · exact lowest_le_values p0 ps _ hhead
  · exact lowest_le_values p0 ps _ hlast

lemma get_market_data_eq (now : Int) (env : Nat → ReqOutcome) :
    get_market_data now env = runFetch now env 0 3 := rfl

/-- A successful response with remaining-quota header 0, reset header 100,
and a complete body: under now = 100 the loop sleeps 10 seconds and
continues. -/
def rlResp : HttpResponse :=
  { remaining := some 0, reset := some 100,
    prices := some [(0, 1)], market_caps := some [(0, 2)] }

/-- A successful response with no rate-limit headers and a complete
body. -/
def okBody : HttpResponse :=
  { remaining := none, reset := none,
    prices := some [(0, 3)], market_caps := some [(0, 4)] }

/-- A successful response with no rate-limit headers and a body missing
the market_caps field. -/
def noCapsResp : HttpResponse :=
  { remaining := none, reset := none,
    prices := some [(0, 3)], market_caps := none }

/-- A successful response reporting remaining 0 with a reset time far in
the past (0, against now = 100). -/
def negResp : HttpResponse :=
  { remaining := some 0, reset := some 0,
    prices := some [(0, 1)], market_caps := some [(0, 2)] }

/-- Environment answering the first three requests with the rate-limited
response and every later one with a full success. -/
def envC1 : Nat → ReqOutcome := fun k =>
  if k < 3 then .ok rlResp else .ok okBody

/-- Environment answering every request with the rate-limited response. -/
def envRL : Nat → ReqOutcome := fun _ => .ok rlResp

/-- Environment answering the first request with the rate-limited
response and every later one with a full success. -/
def envW : Nat → ReqOutcome := fun k =>
  if k = 0 then .ok rlResp else .ok okBody

/-- Environment answering every request with the response missing the
market_caps field. -/
def envC4 : Nat → ReqOutcome := fun _ => .ok noCapsResp

/-- Environment answering every request with the headerless success. -/
def envOk : Nat → ReqOutcome := fun _ => .ok okBody

/-- Environment answering every request with the stale-reset rate-limited
response. -/
def envNeg : Nat → ReqOutcome := fun _ => .ok negResp

/-- Claim C1 is false on the code: with now = 100, three consecutive
rate-limited responses (each triggering the 10-second sleep and continue)
exhaust the whole attempt budget, and the fully valid success the
environment offers from the fourth request on is never issued: the call
returns the empty result. -/
theorem c1_counterexample :
    get_market_data 100 envC1 =
      (FetchOutcome.returns none,
       [SleepEvent.rateLimit 10, SleepEvent.rateLimit 10,
        SleepEvent.rateLimit 10]) ∧
    (get_market_data 100 envC1).1 ≠
      FetchOutcome.returns (some ([(0, 3)], [(0, 4)])) := by
  constructor
  · decide
  · decide

/-- Claim C1 amended: on a rate-limited response (remaining 0, reset no
more than 10 seconds in the past) the fetcher sleeps reset − now + 10
seconds and reissues the request, but the continue advances the loop
counter: the rest of the run has only 2 of the 3 attempt slots left, so
consecutive rate-limited responses do exhaust the attempt budget. -/
theorem c1_amended_rl_consumes_slot (now t : Int) (env : Nat → ReqOutcome)
    (r : HttpResponse) (h0 : env 0 = .ok r) (hrem : r.remaining = some 0)
    (hres : r.reset = some t) (hnn : ¬ t - now + 10 < 0) :
    get_market_data now env =
      ((runFetch now env 1 2).1,
       SleepEvent.rateLimit (t - now + 10) :: (runFetch now env 1 2).2) := by
  have hq : r.remaining.getD 1 = 0 := by rw [hrem]; rfl
  have hgd : r.reset.getD now = t := by rw [hres]; rfl
  have h := runFetch_ok_rl now env 0 2 r h0 hq (by rw [hgd]; exact hnn)
  rw [hgd] at h
  norm_num at h
  rw [get_market_data_eq, h]

theorem c1_amended_witness :
    ¬ ((100 : Int) - 100 + 10 < 0) ∧
    get_market_data 100 envW =
      ((runFetch 100 envW 1 2).1,
       SleepEvent.rateLimit (100 - 100 + 10) :: (runFetch 100 envW 1 2).2) :=
  ⟨by decide, c1_amended_rl_consumes_slot 100 100 envW rlResp rfl rfl rfl
    (by decide)⟩

/-- The request outcome ends the loop iteration with the rate-limit
continue of line 38: a successful response reporting remaining 0 whose
computed sleep duration is non-negative (so time.sleep succeeds). -/
def rlContinues (now : Int) (o : ReqOutcome) : Prop :=
  ∃ r, o = .ok r ∧ r.remaining.getD 1 = 0 ∧
    ¬ r.reset.getD now - now + 10 < 0

/-- The request outcome lets a non-final loop iteration end without
returning: a transport failure (retried after the 5-second sleep) or a
rate-limit continue. -/
def nonReturning (now : Int) (o : ReqOutcome) : Prop :=
  o = .fail ∨ rlContinues now o

lemma rfft_true_iff_lt (now : Int) (env : Nat → ReqOutcome)
    (attempt fuel : Nat) (hlt : attempt < retries - 1) :
    runFetchFallsThrough now env attempt (fuel + 1) = true ↔
      (nonReturning now (env attempt) ∧
        runFetchFallsThrough now env (attempt + 1) fuel = true) := by
  cases henv : env attempt with
  | fail =>
    simp only [runFetchFallsThrough, henv]
    rw [if_pos hlt]
    constructor
    · intro h
      exact ⟨Or.inl rfl, h⟩
    · intro h
      exact h.2
  | ok r =>
    simp only [runFetchFallsThrough, henv]
    by_cases hq : r.remaining.getD 1 = 0
    · rw [if_pos hq]
      by_cases hneg : r.reset.getD now - now + 10 < 0
      · rw [if_pos hneg]
        constructor
        · intro h
          simp at h
        · rintro ⟨hnr, -⟩
          rcases hnr with hf | ⟨r2, hr2, hq2, hnn2⟩
          · cases hf
          · injection hr2 with hrr
            subst hrr
            exact absurd hneg hnn2
      · rw [if_neg hneg]
        constructor
        · intro h
          exact ⟨Or.inr ⟨r, rfl, hq, hneg⟩, h⟩
        · intro h
          exact h.2
    · rw [if_neg hq]
      constructor
      · intro h
        simp at h
      · rintro ⟨hnr, -⟩
        rcases hnr with hf | ⟨r2, hr2, hq2, -⟩
        · cases hf
        · injection hr2 with hrr
          subst hrr
          exact absurd hq2 hq

lemma rfft_true_iff_last (now : Int) (env : Nat → ReqOutcome)
    (attempt fuel : Nat) (hlt : ¬ attempt < retries - 1) :
    runFetchFallsThrough now env attempt (fuel + 1) = true ↔
      (rlContinues now (env attempt) ∧
        runFetchFallsThrough now env (attempt + 1) fuel = true) := by
  cases henv : env attempt with
  | fail =>
    simp only [runFetchFallsThrough, henv]
    rw [if_neg hlt]
    constructor
    · intro h
      simp at h
    · rintro ⟨⟨r2, hr2, -, -⟩, -⟩
      cases hr2
  | ok r =>
    simp only [runFetchFallsThrough, henv]
    by_cases hq : r.remaining.getD 1 = 0
    · rw [if_pos hq]
      by_cases hneg : r.reset.getD now - now + 10 < 0
      · rw [if_pos hneg]
        constructor
        · intro h
          simp at h
        · rintro ⟨⟨r2, hr2, hq2, hnn2⟩, -⟩
          injection hr2 with hrr
          subst hrr
          exact absurd hneg hnn2
      · rw [if_neg hneg]
        constructor
        · intro h
          exact ⟨⟨r, rfl, hq, hneg⟩, h⟩
        · intro h
          exact h.2
    · rw [if_neg hq]
      constructor
      · intro h
        simp at h
      · rintro ⟨⟨r2, hr2, hq2, -⟩, -⟩
        injection hr2 with hrr
        subst hrr
        exact absurd hq2 hq

lemma runFetch_fst_nonReturning (now : Int) (env : Nat → ReqOutcome)
    (attempt fuel : Nat) (h : nonReturning now (env attempt))
    (hlt : attempt < retries - 1) :
    (runFetch now env attempt (fuel + 1)).1 =
      (runFetch now env (attempt + 1) fuel).1 := by
  rcases h with hf | ⟨r, hr, hq, hnn⟩
  · rw [runFetch_fail_retry now env attempt fuel hf hlt]
  · rw [runFetch_ok_rl now env attempt fuel r hr hq hnn]

lemma runFetch_fst_rl (now : Int) (env : Nat → ReqOutcome)
    (attempt fuel : Nat) (h : rlContinues now (env attempt)) :
    (runFetch now env attempt (fuel + 1)).1 =
      (runFetch now env (attempt + 1) fuel).1 := by
  obtain ⟨r, hr, hq, hnn⟩ := h
  rw [runFetch_ok_rl now env attempt fuel r hr hq hnn]

/-- Claim C2 is false on the code: the final return after the loop is
reachable.  With now = 100 and every request answered by the rate-limited
response, all three iterations end in the rate-limit continue, the loop
runs out of iterations, and the silent fallthrough return yields the
empty result after three 10-second sleeps. -/
theorem c2_counterexample :
    fetchFallsThrough 100 envRL = true ∧
    get_market_data 100 envRL =
      (FetchOutcome.returns none,
       [SleepEvent.rateLimit 10, SleepEvent.rateLimit 10,
        SleepEvent.rateLimit 10]) := by
  constructor
  · decide
  · decide

/-- Claim C2 amended: the fallthrough return after the loop is reachable,
and it is reached exactly in the runs where the first two attempts end
without returning (a transport failure with a retry remaining, or a
rate-limit continue) and the third attempt ends in a rate-limit continue;
whenever it is reached, the call returns the empty result through the
fallthrough. -/
theorem c2_amended_fallthrough_iff (now : Int) (env : Nat → ReqOutcome) :
    (fetchFallsThrough now env = true ↔
      (nonReturning now (env 0) ∧ nonReturning now (env 1) ∧
        rlContinues now (env 2))) ∧
    (fetchFallsThrough now env = true →
      (get_market_data now env).1 = FetchOutcome.returns none) := by
  have e0 : runFetchFallsThrough now env 0 3 = true ↔
      (nonReturning now (env 0) ∧
        runFetchFallsThrough now env 1 2 = true) :=
    rfft_true_iff_lt now env 0 2 (by decide)
  have e1 : runFetchFallsThrough now env 1 2 = true ↔
      (nonReturning now (env 1) ∧
        runFetchFallsThrough now env 2 1 = true) :=
    rfft_true_iff_lt now env 1 1 (by decide)
  have e2 : runFetchFallsThrough now env 2 1 = true ↔
      (rlContinues now (env 2) ∧
        runFetchFallsThrough now env 3 0 = true) :=
    rfft_true_iff_last now env 2 0 (by decide)
  have e3 : runFetchFallsThrough now env 3 0 = true := rfl
  have hiff : fetchFallsThrough now env = true ↔
      (nonReturning now (env 0) ∧ nonReturning now (env 1) ∧
        rlContinues now (env 2)) := by
    show runFetchFallsThrough now env 0 3 = true ↔ _
    rw [e0, e1, e2]
    simp [e3]
  refine ⟨hiff, ?_⟩
  intro h
  obtain ⟨h0, h1, h2⟩ := hiff.mp h
  have f0 : (runFetch now env 0 3).1 = (runFetch now env 1 2).1 :=
    runFetch_fst_nonReturning now env 0 2 h0 (by decide)
  have f1 : (runFetch now env 1 2).1 = (runFetch now env 2 1).1 :=
    runFetch_fst_nonReturning now env 1 1 h1 (by decide)
  have f2 : (runFetch now env 2 1).1 = (runFetch now env 3 0).1 :=
    runFetch_fst_rl now env 2 0 h2
  show (runFetch now env 0 3).1 = FetchOutcome.returns none
  rw [f0, f1, f2]
  rfl

theorem c2_amended_iff_witness :
    fetchFallsThrough 100 envRL = true ∧
      (get_market_data 100 envRL).1 = FetchOutcome.returns none := by
  have h := c2_amended_fallthrough_iff 100 envRL
  have ht : fetchFallsThrough 100 envRL = true :=
    h.1.mpr ⟨Or.inr ⟨rlResp, rfl, rfl, by decide⟩,
      Or.inr ⟨rlResp, rfl, rfl, by decide⟩,
      ⟨rlResp, rfl, rfl, by decide⟩⟩
  exact ⟨ht, h.2 ht⟩

/-- Environment for the retry claim: the first f requests raise a
transport error, every later one yields the given successful response. -/
def failThenSuccess (f : Nat) (r : HttpResponse) : Nat → ReqOutcome :=
  fun k => if k < f then .fail else .ok r

/-- Claim C3: with f transport failures followed by successes carrying
valid data and available quota, get_market_data returns the success data
exactly when f < 3, after one 5-second retry sleep per failed non-final
attempt; with 3 or more failures every attempt fails and the call returns
the empty result after the two retry sleeps of attempts 1 and 2. -/
theorem c3_retry_budget (now : Int) (f : Nat) (r : HttpResponse)
    (p c : List Point) (hq : r.remaining.getD 1 ≠ 0)
    (hp : r.prices = some p) (hc : r.market_caps = some c) :
    (f < 3 → get_market_data now (failThenSuccess f r) =
      (FetchOutcome.returns (some (p, c)),
       List.replicate f SleepEvent.retryDelay)) ∧
    (3 ≤ f → get_market_data now (failThenSuccess f r) =
      (FetchOutcome.returns none,
       List.replicate 2 SleepEvent.retryDelay)) := by
  have hok : ∀ attempt fuel : Nat, ¬ attempt < f →
      runFetch now (failThenSuccess f r) attempt (fuel + 1) =
        (FetchOutcome.returns (some (p, c)), []) := by
    intro attempt fuel hge
    have henv : failThenSuccess f r attempt = .ok r := by
      simp [failThenSuccess, hge]
    rw [runFetch_ok_quota now _ attempt fuel r henv hq, hp, hc]
  have hfail : ∀ attempt fuel : Nat, attempt < f → attempt < retries - 1 →
      runFetch now (failThenSuccess f r) attempt (fuel + 1) =
        ((runFetch now (failThenSuccess f r) (attempt + 1) fuel).1,
         SleepEvent.retryDelay ::
           (runFetch now (failThenSuccess f r) (attempt + 1) fuel).2) := by
    intro attempt fuel hlt hlt2
    have henv : failThenSuccess f r attempt = .fail := by
      simp [failThenSuccess, hlt]
    exact runFetch_fail_retry now _ attempt fuel henv hlt2
  constructor
  · intro hf3
    interval_cases f
    · have h := hok 0 2 (by omega)
      norm_num at h
      rw [get_market_data_eq, h]
      rfl
    · have h0 := hfail 0 2 (by omega) (by decide)
      have h1 := hok 1 1 (by omega)
      norm_num at h0 h1
      rw [get_market_data_eq, h0, h1]
      rfl
    · have h0 := hfail 0 2 (by omega) (by decide)
      have h1 := hfail 1 1 (by omega) (by decide)
      have h2 := hok 2 0 (by omega)
      norm_num at h0 h1 h2
      rw [get_market_data_eq, h0, h1, h2]
      rfl
  · intro hf3
    have h0 := hfail 0 2 (by omega) (by decide)
    have h1 := hfail 1 1 (by omega) (by decide)
    have henv2 : failThenSuccess f r 2 = .fail := by
      simp [failThenSuccess]
      omega
    have h2 := runFetch_fail_last now (failThenSuccess f r) 2 0 henv2 (by decide)
    norm_num at h0 h1 h2
    rw [get_market_data_eq, h0, h1, h2]
    rfl

theorem c3_witness :
    okBody.remaining.getD 1 ≠ 0 ∧
      ((1 < 3 → get_market_data 0 (failThenSuccess 1 okBody) =
        (FetchOutcome.returns (some ([(0, 3)], [(0, 4)])),
         List.replicate 1 SleepEvent.retryDelay)) ∧
       (3 ≤ 1 → get_market_data 0 (failThenSuccess 1 okBody) =
        (FetchOutcome.returns none,
         List.replicate 2 SleepEvent.retryDelay))) :=
  ⟨by decide, c3_retry_budget 0 1 okBody [(0, 3)] [(0, 4)] (by decide) rfl rfl⟩

/-- Claim C4: on a first response that is successful with quota
available, get_market_data returns the two sequences exactly when the
body has both a prices and a market_caps field, and returns the empty
result on that same attempt otherwise; in both cases no sleep happens and
no further request matters (the environment beyond index 0 is
arbitrary). -/
theorem c4_body_fields_decide_return (now : Int) (env : Nat → ReqOutcome)
    (r : HttpResponse) (h0 : env 0 = .ok r)
    (hq : r.remaining.getD 1 ≠ 0) :
    (∀ p c, r.prices = some p → r.market_caps = some c →
      get_market_data now env = (FetchOutcome.returns (some (p, c)), [])) ∧
    ((r.prices = none ∨ r.market_caps = none) →
      get_market_data now env = (FetchOutcome.returns none, [])) := by
  have h := runFetch_ok_quota now env 0 2 r h0 hq
  norm_num at h
  constructor
  · intro p c hp hc
    rw [get_market_data_eq, h, hp, hc]
  · intro hnone
    rw [get_market_data_eq, h]
    rcases hnone with hp | hc
    · rw [hp]
    · rw [hc]
      cases hpm : r.prices <;> rfl

theorem c4_witness :
    noCapsResp.remaining.getD 1 ≠ 0 ∧
      ((∀ p c, noCapsResp.prices = some p → noCapsResp.market_caps = some c →
        get_market_data 0 envC4 = (FetchOutcome.returns (some (p, c)), [])) ∧
       ((noCapsResp.prices = none ∨ noCapsResp.market_caps = none) →
        get_market_data 0 envC4 = (FetchOutcome.returns none, []))) :=
  ⟨by decide, c4_body_fields_decide_return 0 envC4 noCapsResp rfl (by decide)⟩

/-- Claim C8: when a successful first response carries neither rate-limit
header, the remaining-quota defaults to 1 (quota available) and the reset
defaults to now, so the rate-limit branch is skipped: the call goes
straight to parsing the body and returns on this attempt, with no sleep of
any kind. -/
theorem c8_missing_headers_default (now : Int) (env : Nat → ReqOutcome)
    (r : HttpResponse) (h0 : env 0 = .ok r) (hrem : r.remaining = none)
    (_hres : r.reset = none) :
    get_market_data now env =
      (match r.prices, r.market_caps with
       | some p, some c => (FetchOutcome.returns (some (p, c)), [])
       | _, _ => (FetchOutcome.returns none, [])) := by
  have hq : r.remaining.getD 1 ≠ 0 := by
    rw [hrem]
    decide
  have h := runFetch_ok_quota now env 0 2 r h0 hq
  norm_num at h
  rw [get_market_data_eq, h]

theorem c8_witness :
    okBody.remaining = none ∧
      get_market_data 0 envOk =
        (match okBody.prices, okBody.market_caps with
         | some p, some c => (FetchOutcome.returns (some (p, c)), [])
         | _, _ => (FetchOutcome.returns none, [])) :=
  ⟨rfl, c8_missing_headers_default 0 envOk okBody rfl rfl rfl⟩

/-- Claim C10: a successful response reporting remaining 0 with a reset
time more than 10 seconds in the past makes sleep_time + 10 negative;
time.sleep then raises a ValueError, which the RequestException handler
does not catch, so get_market_data neither returns nor retries: the
exception propagates to the caller. -/
theorem c10_negative_sleep_raises (now t : Int) (env : Nat → ReqOutcome)
    (r : HttpResponse) (h0 : env 0 = .ok r) (hrem : r.remaining = some 0)
    (hres : r.reset = some t) (ht : t < now - 10) :
    get_market_data now env = (FetchOutcome.raises, []) := by
  have hq : r.remaining.getD 1 = 0 := by rw [hrem]; rfl
  have hgd : r.reset.getD now = t := by rw [hres]; rfl
  have hneg : r.reset.getD now - now + 10 < 0 := by
    rw [hgd]
    omega
  have h := runFetch_ok_rl_neg now env 0 2 r h0 hq hneg
  norm_num at h
  rw [get_market_data_eq, h]

theorem c10_witness :
    (0 : Int) < 100 - 10 ∧
      get_market_data 100 envNeg = (FetchOutcome.raises, []) :=
  ⟨by decide, c10_negative_sleep_raises 100 0 envNeg negResp rfl rfl rfl
    (by decide)⟩

/-- Claim C9 is false on the code: when the fetch returns no data the
continue of line 162 skips the rest of the loop body, and when a per-line
exception is raised the handler of line 179 resumes the loop; in both
cases the time.sleep(5) of line 177 never runs, so no pacing sleep
separates these lines from the next one. -/
theorem c9_counterexample :
    (process_line (LineOutcome.fetched [] [])).sleeps = [] ∧
    (process_line LineOutcome.lineError).sleeps = [] := by
  constructor
  · decide
  · decide

/-- Claim C9 amended: the 5-second pacing sleep runs after a line exactly
when the fetch for that line returned data non-empty in both components
and no per-line exception was raised; the no-data path and the error path
skip it (as does a blank line). -/
theorem c9_amended_sleep_iff_data (o : LineOutcome) :
    (process_line o).sleeps = [5] ↔
      ∃ p c, o = LineOutcome.fetched p c ∧ p ≠ [] ∧ c ≠ [] := by
  cases o with
  | blank => simp [process_line]
  | lineError => simp [process_line]
  | fetched p c =>
    rcases eq_or_ne p [] with hp | hp
    · subst hp
      simp [process_line]
    · rcases eq_or_ne c [] with hc | hc
      · subst hc
        simp [process_line]
      · have hif : ¬ (p = [] ∨ c = []) := by
          push_neg
          exact ⟨hp, hc⟩
        simp only [process_line, hif, if_false, ite_false, if_neg]
        cases hext : extract_price_cap_metrics p c with
        | none =>
          simp only [LineOutcome.fetched.injEq]
          constructor
          · intro _
            exact ⟨p, c, ⟨rfl, rfl⟩, hp, hc⟩
          · intro _
            trivial
        | some m =>
          simp only [LineOutcome.fetched.injEq]
          constructor
          · intro _
            exact ⟨p, c, ⟨rfl, rfl⟩, hp, hc⟩
          · intro _
            trivial
